import Mathlib

/-!
Shallow embedding of `src/app/core/retrieval/serialization.py`:
the two chunk serializers `serialize_chunks` and `serialize_chunks_with_ids`,
together with the pieces of Python semantics they rely on
(truthiness, `dict.get` with default, `str.strip`, slicing, `str(int)`).
-/

namespace Serialization

/-- Decimal digit character, as Python renders digits of a nonnegative int. -/
def digitCh (d : Nat) : Char := Char.ofNat (48 + d)

/-- Decimal rendering of a natural number with explicit fuel (structural,
so that concrete values reduce); with fuel > n it renders all digits. -/
def toDecimalAux : Nat → Nat → List Char
  | 0, _ => []
  | fuel + 1, n =>
    if n < 10 then [digitCh n] else toDecimalAux fuel (n / 10) ++ [digitCh (n % 10)]

/-- Decimal rendering of a natural number, as Python `str(n)` for `n ≥ 0`. -/
def toDecimal (n : Nat) : List Char := toDecimalAux (n + 1) n

/-- Python `str(n)` for a natural number. -/
def natStr (n : Nat) : String := ⟨toDecimal n⟩

/-- Python `str(n)` for an int. -/
def intStr (n : Int) : String :=
  if n < 0 then "-" ++ natStr n.natAbs else natStr n.toNat

/-- Values that can occur in a `Document.metadata` mapping (Python objects). -/
inductive PyVal where
  | none
  | int (n : Int)
  | str (s : String)
deriving DecidableEq, Repr

/-- Python truthiness of a metadata value. -/
def truthy : PyVal → Bool
  | .none => false
  | .int n => n != 0
  | .str s => s != ""

/-- Python `str(v)` as used by f-string interpolation. -/
def pyStr : PyVal → String
  | .none => "None"
  | .int n => intStr n
  | .str s => s

/-- `langchain_core.documents.Document`: page content plus a metadata dict,
modelled as an association list in insertion order. -/
structure Document where
  page_content : String
  metadata : List (String × PyVal)
deriving DecidableEq, Repr

/-- Characters removed by Python `str.strip()` (ASCII/Latin-1 whitespace). -/
def isPySpace (c : Char) : Bool :=
  c = ' ' || c = '\t' || c = '\n' || c = '\r' || c = '\x0b' || c = '\x0c' ||
  c = '\x1c' || c = '\x1d' || c = '\x1e' || c = '\x1f' || c = '\x85' || c = '\xa0'

/-- `str.strip()` on the character list: drop whitespace from both ends. -/
def stripList (l : List Char) : List Char :=
  ((l.dropWhile isPySpace).reverse.dropWhile isPySpace).reverse

/-- Python `s.strip()`. -/
def pyStrip (s : String) : String := ⟨stripList s.data⟩

/-- Python slice `s[:n]`. -/
def strTake (n : Nat) (s : String) : String := ⟨s.data.take n⟩

/-- `doc.metadata.get("page") or doc.metadata.get("page_number", "unknown")`
(lines 26–28 and 57–59 of the source): short-circuit `or` over the first
lookup, whose absent case is Python `None` (falsy). -/
def getPage (md : List (String × PyVal)) : PyVal :=
  match md.lookup "page" with
  | some v => if truthy v then v else (md.lookup "page_number").getD (.str "unknown")
  | Option.none => (md.lookup "page_number").getD (.str "unknown")

/-- `doc.metadata.get("source", "unknown")` (line 60 of the source). -/
def getSource (md : List (String × PyVal)) : PyVal :=
  (md.lookup "source").getD (.str "unknown")

/-- The block built for one document by `serialize_chunks`:
`f"Chunk {idx} (page={page_num}):\n{chunk_content}"`. -/
def chunkBlock (idx : Nat) (d : Document) : String :=
  "Chunk " ++ natStr idx ++ " (page=" ++ pyStr (getPage d.metadata) ++ "):\n" ++
    pyStrip d.page_content

/-- The loop of `serialize_chunks`, carrying `enumerate`'s counter. -/
def chunkParts : Nat → List Document → List String
  | _, [] => []
  | idx, d :: ds => chunkBlock idx d :: chunkParts (idx + 1) ds

/-- `serialize_chunks(docs)`: join the blocks with a blank line. -/
def serialize_chunks (docs : List Document) : String :=
  String.intercalate "\n\n" (chunkParts 1 docs)

/-- A citation record `{page, source, snippet}`. -/
structure Citation where
  page : PyVal
  source : PyVal
  snippet : String
deriving DecidableEq, Repr

/-- The context block built for one document by `serialize_chunks_with_ids`:
`f"[{chunk_id}] Chunk from page {page_num}:\n{chunk_content}"`. -/
def citeBlock (idx : Nat) (d : Document) : String :=
  "[C" ++ natStr idx ++ "] Chunk from page " ++ pyStr (getPage d.metadata) ++ ":\n" ++
    pyStrip d.page_content

/-- The citation record built for one document:
`{"page": page_num, "source": source, "snippet": chunk_content[:100] + "..."}`. -/
def mkCitation (d : Document) : Citation :=
  { page := getPage d.metadata
    source := getSource d.metadata
    snippet := strTake 100 (pyStrip d.page_content) ++ "..." }

/-- The context half of the loop of `serialize_chunks_with_ids`. -/
def citeParts : Nat → List Document → List String
  | _, [] => []
  | idx, d :: ds => citeBlock idx d :: citeParts (idx + 1) ds

/-- The citations dict of `serialize_chunks_with_ids`, as an association
list in insertion order (Python dicts preserve insertion order). -/
def citeEntries : Nat → List Document → List (String × Citation)
  | _, [] => []
  | idx, d :: ds => ("C" ++ natStr idx, mkCitation d) :: citeEntries (idx + 1) ds

/-- `serialize_chunks_with_ids(docs)`: the joined context and the citations. -/
def serialize_chunks_with_ids (docs : List Document) :
    String × List (String × Citation) :=
  (String.intercalate "\n\n" (citeParts 1 docs), citeEntries 1 docs)

/-! ### Decimal rendering round-trip -/

/-- Reads a decimal digit string back: left inverse of `toDecimal`. -/
def fromDecimal (l : List Char) : Nat :=
  l.foldl (fun a c => 10 * a + (c.toNat - 48)) 0

theorem digitCh_toNat : ∀ d, d < 10 → (digitCh d).toNat - 48 = d := by decide

theorem fromDecimal_toDecimalAux :
    ∀ fuel n, n < fuel → fromDecimal (toDecimalAux fuel n) = n := by
  intro fuel
  induction fuel with
  | zero => intro n h; omega
  | succ fuel ih =>
    intro n h
    by_cases h10 : n < 10
    · simp [toDecimalAux, h10, fromDecimal, digitCh_toNat n h10]
    · have hn : 0 < n := by omega
      have hdiv : n / 10 < fuel := by
        have := Nat.div_lt_self hn (by norm_num : 1 < 10)
        omega
      have hmod : n % 10 < 10 := Nat.mod_lt n (by norm_num)
      simp only [toDecimalAux, h10, if_false, fromDecimal, List.foldl_append]
      have := ih (n / 10) hdiv
      simp only [fromDecimal] at this
      simp only [List.foldl, this, digitCh_toNat (n % 10) hmod]
      omega

theorem fromDecimal_toDecimal (n : Nat) : fromDecimal (toDecimal n) = n :=
  fromDecimal_toDecimalAux (n + 1) n (Nat.lt_succ_self n)

theorem natStr_injective : Function.Injective natStr := by
  intro m n h
  have hd : toDecimal m = toDecimal n := congrArg String.data h
  have := congrArg fromDecimal hd
  rwa [fromDecimal_toDecimal, fromDecimal_toDecimal] at this

/-- The citation-key function `i ↦ "C" ++ str(i)` is injective. -/
theorem citeKey_injective : Function.Injective (fun i => "C" ++ natStr i) := by
  intro m n h
  apply natStr_injective
  have hd := congrArg String.data h
  simp only [String.data_append] at hd
  apply String.ext
  exact List.append_cancel_left hd

/-! ### Indexing the loop outputs -/

theorem chunkParts_length (k : Nat) (docs : List Document) :
    (chunkParts k docs).length = docs.length := by
  induction docs generalizing k with
  | nil => rfl
  | cons d ds ih => simp [chunkParts, ih]

theorem citeParts_length (k : Nat) (docs : List Document) :
    (citeParts k docs).length = docs.length := by
  induction docs generalizing k with
  | nil => rfl
  | cons d ds ih => simp [citeParts, ih]

theorem citeEntries_length (k : Nat) (docs : List Document) :
    (citeEntries k docs).length = docs.length := by
  induction docs generalizing k with
  | nil => rfl
  | cons d ds ih => simp [citeEntries, ih]

theorem chunkParts_get? (k i : Nat) (docs : List Document) (d : Document)
    (h : docs.get? i = some d) :
    (chunkParts k docs).get? i = some (chunkBlock (k + i) d) := by
  induction docs generalizing k i with
  | nil => simp at h
  | cons a ds ih =>
    cases i with
    | zero => simp at h; simp [chunkParts, h]
    | succ j =>
      simp only [List.get?] at h
      have := ih (k + 1) j h
      simpa [chunkParts, Nat.add_assoc, Nat.add_comm 1 j] using this

theorem citeParts_get? (k i : Nat) (docs : List Document) (d : Document)
    (h : docs.get? i = some d) :
    (citeParts k docs).get? i = some (citeBlock (k + i) d) := by
  induction docs generalizing k i with
  | nil => simp at h
  | cons a ds ih =>
    cases i with
    | zero => simp at h; simp [citeParts, h]
    | succ j =>
      simp only [List.get?] at h
      have := ih (k + 1) j h
      simpa [citeParts, Nat.add_assoc, Nat.add_comm 1 j] using this

theorem citeEntries_get? (k i : Nat) (docs : List Document) (d : Document)
    (h : docs.get? i = some d) :
    (citeEntries k docs).get? i = some ("C" ++ natStr (k + i), mkCitation d) := by
  induction docs generalizing k i with
  | nil => simp at h
  | cons a ds ih =>
    cases i with
    | zero => simp at h; simp [citeEntries, h]
    | succ j =>
      simp only [List.get?] at h
      have := ih (k + 1) j h
      simpa [citeEntries, Nat.add_assoc, Nat.add_comm 1 j] using this

theorem citeEntries_keys (k : Nat) (docs : List Document) :
    (citeEntries k docs).map Prod.fst =
      (List.range' k docs.length).map (fun i => "C" ++ natStr i) := by
  induction docs generalizing k with
  | nil => rfl
  | cons d ds ih => simp [citeEntries, List.range', ih]

theorem citeEntries_keys_nodup (k : Nat) (docs : List Document) :
    ((citeEntries k docs).map Prod.fst).Nodup := by
  rw [citeEntries_keys]
  exact (List.nodup_range' k docs.length).map citeKey_injective

/-! ### Properties of `pyStrip` -/

/-- `str.strip()` only removes characters at the two ends: the input splits as
whitespace, the stripped value, whitespace. -/
theorem stripList_decomp (l : List Char) :
    ∃ pre post, l = pre ++ stripList l ++ post ∧
      (∀ c ∈ pre, isPySpace c = true) ∧ (∀ c ∈ post, isPySpace c = true) := by
  refine ⟨l.takeWhile isPySpace,
    ((l.dropWhile isPySpace).reverse.takeWhile isPySpace).reverse, ?_, ?_, ?_⟩
  · conv_lhs => rw [← List.takeWhile_append_dropWhile isPySpace l]
    rw [List.append_assoc]
    congr 1
    rw [stripList, ← List.reverse_append, List.takeWhile_append_dropWhile,
      List.reverse_reverse]
  · intro c hc; exact List.mem_takeWhile_imp hc
  · intro c hc
    rw [List.mem_reverse] at hc
    exact List.mem_takeWhile_imp hc

theorem stripList_eq_nil (l : List Char) (h : ∀ c ∈ l, isPySpace c = true) :
    stripList l = [] := by
  have h1 : l.dropWhile isPySpace = [] := List.dropWhile_eq_nil_iff.mpr h
  simp [stripList, h1]

theorem pyStrip_eq_empty (s : String) (h : ∀ c ∈ s.data, isPySpace c = true) :
    pyStrip s = "" := by
  simp [pyStrip, stripList_eq_nil s.data h]

/-! ### Exception-aware embedding

Python statements can raise; to state totality we re-embed the two
serializers in an `Except` monad in which every primitive the code uses
(`dict.get` with or without default, truthiness test, f-string formatting,
`strip`, slicing, `join`) is given its Python semantics, raising exactly
where Python would.  `dict.get` never raises (unlike `dict[...]`), so the
result is always `Except.ok`. -/

/-- Python `d.get(k)`: `None` when absent, never raises. -/
def pyGet (md : List (String × PyVal)) (k : String) : Except String PyVal :=
  .ok ((md.lookup k).getD .none)

/-- Python `d.get(k, default)`: never raises. -/
def pyGetD (md : List (String × PyVal)) (k : String) (dflt : PyVal) :
    Except String PyVal :=
  .ok ((md.lookup k).getD dflt)

/-- `metadata.get("page") or metadata.get("page_number", "unknown")` in the
exception-aware embedding. -/
def getPageE (md : List (String × PyVal)) : Except String PyVal := do
  let a ← pyGet md "page"
  if truthy a then pure a else pyGetD md "page_number" (.str "unknown")

theorem getPageE_ok (md : List (String × PyVal)) :
    getPageE md = .ok (getPage md) := by
  have e : getPageE md =
      (if truthy ((md.lookup "page").getD .none)
        then Except.ok ((md.lookup "page").getD .none)
        else Except.ok ((md.lookup "page_number").getD (.str "unknown"))) := rfl
  rw [e]
  cases h : md.lookup "page" with
  | none => simp [getPage, h, truthy]
  | some v => by_cases hv : truthy v <;> simp [getPage, h, hv]

/-- The loop body of `serialize_chunks` in the exception-aware embedding. -/
def chunkPartsE : Nat → List Document → Except String (List String)
  | _, [] => .ok []
  | idx, d :: ds => do
    let p ← getPageE d.metadata
    let rest ← chunkPartsE (idx + 1) ds
    .ok (("Chunk " ++ natStr idx ++ " (page=" ++ pyStr p ++ "):\n" ++
      pyStrip d.page_content) :: rest)

/-- `serialize_chunks` in the exception-aware embedding. -/
def serialize_chunksE (docs : List Document) : Except String String := do
  let ps ← chunkPartsE 1 docs
  .ok (String.intercalate "\n\n" ps)

theorem chunkPartsE_ok (k : Nat) (docs : List Document) :
    chunkPartsE k docs = .ok (chunkParts k docs) := by
  induction docs generalizing k with
  | nil => rfl
  | cons d ds ih =>
    show (do
      let p ← getPageE d.metadata
      let rest ← chunkPartsE (k + 1) ds
      Except.ok (("Chunk " ++ natStr k ++ " (page=" ++ pyStr p ++ "):\n" ++
        pyStrip d.page_content) :: rest)) = _
    rw [getPageE_ok, ih]
    rfl

/-- The loop of `serialize_chunks_with_ids` in the exception-aware embedding,
returning the context parts and the citation entries. -/
def citeLoopE : Nat → List Document →
    Except String (List String × List (String × Citation))
  | _, [] => .ok ([], [])
  | idx, d :: ds => do
    let p ← getPageE d.metadata
    let s ← pyGetD d.metadata "source" (.str "unknown")
    let rest ← citeLoopE (idx + 1) ds
    .ok (("[C" ++ natStr idx ++ "] Chunk from page " ++ pyStr p ++ ":\n" ++
        pyStrip d.page_content) :: rest.1,
      ("C" ++ natStr idx,
        ⟨p, s, strTake 100 (pyStrip d.page_content) ++ "..."⟩) :: rest.2)

/-- `serialize_chunks_with_ids` in the exception-aware embedding. -/
def serialize_chunks_with_idsE (docs : List Document) :
    Except String (String × List (String × Citation)) := do
  let r ← citeLoopE 1 docs
  .ok (String.intercalate "\n\n" r.1, r.2)

theorem citeLoopE_ok (k : Nat) (docs : List Document) :
    citeLoopE k docs = .ok (citeParts k docs, citeEntries k docs) := by
  induction docs generalizing k with
  | nil => rfl
  | cons d ds ih =>
    show (do
      let p ← getPageE d.metadata
      let s ← pyGetD d.metadata "source" (.str "unknown")
      let rest ← citeLoopE (k + 1) ds
      Except.ok (("[C" ++ natStr k ++ "] Chunk from page " ++ pyStr p ++ ":\n" ++
          pyStrip d.page_content) :: rest.1,
        ("C" ++ natStr k,
          (⟨p, s, strTake 100 (pyStrip d.page_content) ++ "..."⟩ : Citation)) ::
            rest.2)) = _
    rw [getPageE_ok, ih]
    rfl

/-! ### Claims -/

/-- C1: the page value rendered in both serializers (and stored in the
citation record) is the passage's `page` attribute when present and truthy;
when `page` is absent or falsy it is the `page_number` attribute; when
`page_number` is also absent it is the literal string "unknown"; and a
passage with attributes {page: 0, page_number: 9} renders page 9. -/
theorem C1_page_fallback (d : Document) (idx : Nat) :
    (chunkBlock idx d = "Chunk " ++ natStr idx ++ " (page=" ++
        pyStr (getPage d.metadata) ++ "):\n" ++ pyStrip d.page_content) ∧
    (citeBlock idx d = "[C" ++ natStr idx ++ "] Chunk from page " ++
        pyStr (getPage d.metadata) ++ ":\n" ++ pyStrip d.page_content) ∧
    ((mkCitation d).page = getPage d.metadata) ∧
    (∀ v, d.metadata.lookup "page" = some v → truthy v = true →
      getPage d.metadata = v) ∧
    ((d.metadata.lookup "page" = Option.none ∨
        (∃ v, d.metadata.lookup "page" = some v ∧ truthy v = false)) →
      (∀ w, d.metadata.lookup "page_number" = some w → getPage d.metadata = w) ∧
      (d.metadata.lookup "page_number" = Option.none →
        getPage d.metadata = .str "unknown")) ∧
    (getPage [("page", .int 0), ("page_number", .int 9)] = .int 9) := by
  refine ⟨rfl, rfl, rfl, ?_, ?_, rfl⟩
  · intro v hv ht
    simp [getPage, hv, ht]
  · rintro (h | ⟨v, hv, hf⟩) <;> constructor
    · intro w hw; simp [getPage, h, hw]
    · intro hw; simp [getPage, h, hw]
    · intro w hw; simp [getPage, hv, hf, hw]
    · intro hw; simp [getPage, hv, hf, hw]

theorem C1_page_fallback_witness :
    getPage [("page", PyVal.int 0), ("page_number", PyVal.int 9)] = PyVal.int 9 :=
  (C1_page_fallback ⟨"x", [("page", .int 0), ("page_number", .int 9)]⟩ 1).2.2.2.2.2

/-- C2: on the two concrete passages of the spec, `serialize_chunks_with_ids`
returns exactly the stated context string and citations mapping. -/
theorem C2_concrete_two_docs :
    serialize_chunks_with_ids
      [⟨"Alpha text.", [("page", .int 1), ("source", .str "doc.pdf")]⟩,
       ⟨"Beta text.", [("page_number", .int 2)]⟩] =
    ("[C1] Chunk from page 1:\nAlpha text.\n\n[C2] Chunk from page 2:\nBeta text.",
     [("C1", ⟨.int 1, .str "doc.pdf", "Alpha text...."⟩),
      ("C2", ⟨.int 2, .str "unknown", "Beta text...."⟩)]) := by rfl

/-- C3: in both serializers the i-th block comes from the i-th passage; in
`serialize_chunks_with_ids` the i-th citation ID is "C" followed by the
decimal of i+1 (1-based), there is exactly one citation entry per passage in
input order, and all keys are distinct. -/
theorem C3_ordering_invariant (docs : List Document) :
    (serialize_chunks docs = String.intercalate "\n\n" (chunkParts 1 docs) ∧
      (chunkParts 1 docs).length = docs.length ∧
      (∀ i d, docs.get? i = some d →
        (chunkParts 1 docs).get? i = some (chunkBlock (i + 1) d))) ∧
    ((serialize_chunks_with_ids docs).1 =
        String.intercalate "\n\n" (citeParts 1 docs) ∧
      (citeParts 1 docs).length = docs.length ∧
      (∀ i d, docs.get? i = some d →
        (citeParts 1 docs).get? i = some (citeBlock (i + 1) d))) ∧
    ((serialize_chunks_with_ids docs).2.length = docs.length ∧
      (∀ i d, docs.get? i = some d →
        (serialize_chunks_with_ids docs).2.get? i =
          some ("C" ++ natStr (i + 1), mkCitation d)) ∧
      ((serialize_chunks_with_ids docs).2.map Prod.fst).Nodup) := by
  refine ⟨⟨rfl, chunkParts_length 1 docs, ?_⟩,
    ⟨rfl, citeParts_length 1 docs, ?_⟩,
    citeEntries_length 1 docs, ?_, citeEntries_keys_nodup 1 docs⟩
  · intro i d h
    have := chunkParts_get? 1 i docs d h
    rwa [Nat.add_comm 1 i] at this
  · intro i d h
    have := citeParts_get? 1 i docs d h
    rwa [Nat.add_comm 1 i] at this
  · intro i d h
    have := citeEntries_get? 1 i docs d h
    rwa [Nat.add_comm 1 i] at this

theorem C3_ordering_invariant_witness :
    (serialize_chunks_with_ids
      [⟨"Alpha text.", [("page", .int 1)]⟩]).2.get? 0 =
    some ("C" ++ natStr 1, mkCitation ⟨"Alpha text.", [("page", .int 1)]⟩) :=
  (C3_ordering_invariant [⟨"Alpha text.", [("page", .int 1)]⟩]).2.2.2.1 0
    ⟨"Alpha text.", [("page", .int 1)]⟩ rfl

/-- C4: the snippet is the first 100 characters of the trimmed content with
"..." appended unconditionally: trimmed content of length 50 gives the full
content plus "...", and of length 150 gives exactly its first 100 characters
plus "...". -/
theorem C4_snippet_truncation (d : Document) :
    ((mkCitation d).snippet = strTake 100 (pyStrip d.page_content) ++ "...") ∧
    ((pyStrip d.page_content).length = 50 →
      (mkCitation d).snippet = pyStrip d.page_content ++ "...") ∧
    ((pyStrip d.page_content).length = 150 →
      (strTake 100 (pyStrip d.page_content)).length = 100 ∧
      (strTake 100 (pyStrip d.page_content)).data =
        (pyStrip d.page_content).data.take 100) := by
  refine ⟨rfl, ?_, ?_⟩
  · intro h
    have hlen : (pyStrip d.page_content).data.length ≤ 100 := by
      simp only [String.length] at h
      omega
    have : strTake 100 (pyStrip d.page_content) = pyStrip d.page_content := by
      apply String.ext
      simp [strTake, List.take_of_length_le hlen]
    rw [mkCitation, this]
  · intro h
    constructor
    · simp only [String.length] at h ⊢
      simp [strTake, h]
    · rfl

theorem C4_snippet_truncation_witness :
    (pyStrip
      "aaaaaaaaaaaaaaaaaaaaaaaaaaaaaaaaaaaaaaaaaaaaaaaaaa").length = 50 ∧
    (mkCitation ⟨"aaaaaaaaaaaaaaaaaaaaaaaaaaaaaaaaaaaaaaaaaaaaaaaaaa", []⟩).snippet =
      pyStrip "aaaaaaaaaaaaaaaaaaaaaaaaaaaaaaaaaaaaaaaaaaaaaaaaaa" ++ "..." :=
  ⟨by rfl,
    (C4_snippet_truncation
      ⟨"aaaaaaaaaaaaaaaaaaaaaaaaaaaaaaaaaaaaaaaaaaaaaaaaaa", []⟩).2.1 (by rfl)⟩

/-- C5: on the empty input, `serialize_chunks` returns "" and
`serialize_chunks_with_ids` returns the pair ("", empty mapping). -/
theorem C5_empty_input :
    serialize_chunks [] = "" ∧ serialize_chunks_with_ids [] = ("", []) :=
  ⟨rfl, rfl⟩

/-- C6: the block body in both serializers is the content with leading and
trailing whitespace removed and everything between preserved verbatim
(the content splits as whitespace ++ body ++ whitespace); in particular
"  hello world  \n" serializes as "hello world" and "line1\nline2" keeps
its internal newline. -/
theorem C6_trimming (d : Document) (idx : Nat) :
    (chunkBlock idx d = "Chunk " ++ natStr idx ++ " (page=" ++
        pyStr (getPage d.metadata) ++ "):\n" ++ pyStrip d.page_content) ∧
    (citeBlock idx d = "[C" ++ natStr idx ++ "] Chunk from page " ++
        pyStr (getPage d.metadata) ++ ":\n" ++ pyStrip d.page_content) ∧
    (∃ pre post,
      d.page_content.data = pre ++ (pyStrip d.page_content).data ++ post ∧
      (∀ c ∈ pre, isPySpace c = true) ∧ (∀ c ∈ post, isPySpace c = true)) ∧
    pyStrip "  hello world  \n" = "hello world" ∧
    pyStrip "line1\nline2" = "line1\nline2" := by
  refine ⟨rfl, rfl, ?_, rfl, rfl⟩
  obtain ⟨pre, post, heq, hpre, hpost⟩ := stripList_decomp d.page_content.data
  exact ⟨pre, post, heq, hpre, hpost⟩

theorem C6_trimming_witness :
    pyStrip "  hello world  \n" = "hello world" :=
  (C6_trimming ⟨"  hello world  \n", []⟩ 1).2.2.2.1

/-- C7: the citation record's source is the `source` attribute whenever the
key is present — even when its value is falsy, such as the empty string —
and "unknown" exactly when the key is absent. -/
theorem C7_source_resolution (d : Document) :
    (∀ v, d.metadata.lookup "source" = some v → (mkCitation d).source = v) ∧
    (d.metadata.lookup "source" = Option.none →
      (mkCitation d).source = .str "unknown") ∧
    (d.metadata.lookup "source" = some (.str "") →
      (mkCitation d).source = .str "") := by
  refine ⟨?_, ?_, ?_⟩
  · intro v hv; simp [mkCitation, getSource, hv]
  · intro h; simp [mkCitation, getSource, h]
  · intro h; simp [mkCitation, getSource, h]

theorem C7_source_resolution_witness :
    (mkCitation ⟨"x", [("source", PyVal.str "")]⟩).source = PyVal.str "" :=
  (C7_source_resolution ⟨"x", [("source", PyVal.str "")]⟩).2.2 rfl

/-- C8: both serializers are total: in the exception-aware embedding, where
every primitive the code uses carries its Python raising behaviour, each
returns an `ok` result on every input, equal to the pure serializer's
output. -/
theorem C8_totality (docs : List Document) :
    (∃ s, serialize_chunksE docs = Except.ok s ∧ s = serialize_chunks docs) ∧
    (∃ p, serialize_chunks_with_idsE docs = Except.ok p ∧
      p = serialize_chunks_with_ids docs) := by
  refine ⟨⟨serialize_chunks docs, ?_, rfl⟩,
    ⟨serialize_chunks_with_ids docs, ?_, rfl⟩⟩
  · show (do
      let ps ← chunkPartsE 1 docs
      Except.ok (String.intercalate "\n\n" ps)) = _
    rw [chunkPartsE_ok]
    rfl
  · show (do
      let r ← citeLoopE 1 docs
      Except.ok (String.intercalate "\n\n" r.1, r.2)) = _
    rw [citeLoopE_ok]
    rfl

/-- C9: a passage whose content is empty or all whitespace gets the snippet
"..." alone, and in both serializers its block is just the header followed
by the newline (empty body). -/
theorem C9_whitespace_only (d : Document) (idx : Nat)
    (h : ∀ c ∈ d.page_content.data, isPySpace c = true) :
    (mkCitation d).snippet = "..." ∧
    chunkBlock idx d = "Chunk " ++ natStr idx ++ " (page=" ++
      pyStr (getPage d.metadata) ++ "):\n" ∧
    citeBlock idx d = "[C" ++ natStr idx ++ "] Chunk from page " ++
      pyStr (getPage d.metadata) ++ ":\n" := by
  have hs : pyStrip d.page_content = "" := pyStrip_eq_empty d.page_content h
  refine ⟨?_, ?_, ?_⟩
  · rw [mkCitation]
    show strTake 100 (pyStrip d.page_content) ++ "..." = "..."
    rw [hs]
    rfl
  · rw [chunkBlock, hs]
    apply String.ext
    simp [String.data_append]
  · rw [citeBlock, hs]
    apply String.ext
    simp [String.data_append]

theorem C9_whitespace_only_witness :
    (mkCitation ⟨"  \n", []⟩).snippet = "..." ∧
    chunkBlock 1 ⟨"  \n", []⟩ = "Chunk " ++ natStr 1 ++ " (page=" ++
      pyStr (getPage ([] : List (String × PyVal))) ++ "):\n" :=
  ⟨(C9_whitespace_only ⟨"  \n", []⟩ 1 (by decide)).1,
   (C9_whitespace_only ⟨"  \n", []⟩ 1 (by decide)).2.1⟩

/-- C10: the two outputs of `serialize_chunks_with_ids` are consistent: the
citation stored under "C"++str(i+1) carries the same page value as the one
rendered in the i-th context block header, and the snippet minus its "..."
suffix is a prefix of that block's body. -/
theorem C10_internal_consistency (docs : List Document) (i : Nat)
    (d : Document) (h : docs.get? i = some d) :
    ∃ cit body,
      (serialize_chunks_with_ids docs).1 =
        String.intercalate "\n\n" (citeParts 1 docs) ∧
      (serialize_chunks_with_ids docs).2.get? i =
        some ("C" ++ natStr (i + 1), cit) ∧
      (citeParts 1 docs).get? i = some ("[C" ++ natStr (i + 1) ++
        "] Chunk from page " ++ pyStr cit.page ++ ":\n" ++ body) ∧
      ∃ pfx rest, cit.snippet = pfx ++ "..." ∧ body = pfx ++ rest := by
  refine ⟨mkCitation d, pyStrip d.page_content, rfl, ?_, ?_, ?_⟩
  · have := citeEntries_get? 1 i docs d h
    rwa [Nat.add_comm 1 i] at this
  · have := citeParts_get? 1 i docs d h
    rwa [Nat.add_comm 1 i] at this
  · refine ⟨strTake 100 (pyStrip d.page_content),
      ⟨(pyStrip d.page_content).data.drop 100⟩, rfl, ?_⟩
    apply String.ext
    simp [strTake, String.data_append]

theorem C10_internal_consistency_witness :
    ∃ cit body,
      (serialize_chunks_with_ids [⟨" Beta text. ", [("page_number", .int 2)]⟩]).1 =
        String.intercalate "\n\n"
          (citeParts 1 [⟨" Beta text. ", [("page_number", .int 2)]⟩]) ∧
      (serialize_chunks_with_ids
          [⟨" Beta text. ", [("page_number", .int 2)]⟩]).2.get? 0 =
        some ("C" ++ natStr (0 + 1), cit) ∧
      (citeParts 1 [⟨" Beta text. ", [("page_number", .int 2)]⟩]).get? 0 =
        some ("[C" ++ natStr (0 + 1) ++ "] Chunk from page " ++
          pyStr cit.page ++ ":\n" ++ body) ∧
      ∃ pfx rest, cit.snippet = pfx ++ "..." ∧ body = pfx ++ rest :=
  C10_internal_consistency [⟨" Beta text. ", [("page_number", .int 2)]⟩] 0
    ⟨" Beta text. ", [("page_number", .int 2)]⟩ rfl

end Serialization
